import Mathlib

/-!
Verification development for the mycord terminal chat client (src/client.c).

The client exchanges fixed-size binary records over a TCP socket.  This file
gives a shallow embedding of the pieces that carry the program's invariants:

* the message kind codes and the packed record layout (`message_t`);
* byte-order conversion (`htonl`, `htons`, `ntohl`), parametrised by the
  host's endianness (`le = true` for a little-endian host) so that the wire
  layout of an integer field can be computed (`memBytes32`);
* the guaranteed-complete transfer loops `perform_full_read` and
  `perform_full_write`, modelled over a trace of transport events
  (`IOEvent`), one event per underlying read/write call;
* one iteration of the receive loop (`receive_messages_iteration`);
* the mention-highlighting scan of the MESSAGE_RECV branch
  (`scan_message` / `highlight_message`), producing a list of render events;
* one iteration of the send loop (`send_loop_iteration`) with the input
  validation checks, and the record constructors used by main
  (`login_message`, `outbound_message`, `logout_message`);
* main's connect phase (`main_connect_phase`) and its logout/join epilogue
  (`main_logout_epilogue`).

Each definition follows the corresponding lines of src/client.c; comments
cite the line numbers.
-/

namespace Client

/-- Kind code LOGIN from enum MessageType (src/client.c line 17). -/
def LOGIN : Nat := 0

/-- Kind code LOGOUT (line 18). -/
def LOGOUT : Nat := 1

/-- Kind code MESSAGE_SEND (line 19). -/
def MESSAGE_SEND : Nat := 2

/-- Kind code MESSAGE_RECV (line 20). -/
def MESSAGE_RECV : Nat := 10

/-- Kind code DISCONNECT (line 21). -/
def DISCONNECT : Nat := 12

/-- Kind code SYSTEM (line 22). -/
def SYSTEM : Nat := 13

/-- Byte-reversal of a 32-bit value (the effect of htonl/ntohl on a
little-endian host). -/
def bswap32 (v : Nat) : Nat :=
  v % 256 * 16777216 + v / 256 % 256 * 65536 + v / 65536 % 256 * 256 + v / 16777216 % 256

/-- htonl: host to network byte order for a 32-bit value.  `le` says whether
the host is little-endian; on a big-endian host htonl is the identity on
32-bit values. -/
def htonl (le : Bool) (v : Nat) : Nat :=
  if le then bswap32 (v % 4294967296) else v % 4294967296

/-- htons: host to network byte order for a 16-bit value.  Used (instead of
htonl) by the source at line 342 for the login record's kind field. -/
def htons (le : Bool) (v : Nat) : Nat :=
  if le then v % 256 * 256 + v / 256 % 256 else v % 65536

/-- ntohl: network to host byte order, the inverse of `htonl` (lines 234-235). -/
def ntohl (le : Bool) (v : Nat) : Nat := htonl le v

/-- The four bytes of a 32-bit unsigned field as laid out in host memory —
and hence on the wire, because the client writes the packed struct raw. -/
def memBytes32 (le : Bool) (v : Nat) : List Nat :=
  if le then [v % 256, v / 256 % 256, v / 65536 % 256, v / 16777216 % 256]
  else [v / 16777216 % 256, v / 65536 % 256, v / 256 % 256, v % 256]

/-- Big-endian (network order) byte sequence of a 32-bit value. -/
def be32bytes (v : Nat) : List Nat :=
  [v / 16777216 % 256, v / 65536 % 256, v / 256 % 256, v % 256]

/-- The NUL character, used for padding the fixed-capacity fields. -/
def nul : Char := Char.ofNat 0

/-- The packed wire record `struct Message` (lines 26-31): 32-bit kind,
32-bit timestamp, 32-byte username field, 1024-byte body field.  The integer
fields hold the value as stored in the struct (wire order when the struct is
about to be written, host order after the ntohl conversions). -/
structure message_t where
  message_type : Nat
  timestamp : Nat
  username : List Char
  message : List Char
deriving DecidableEq

/-- Model of `strncpy(dst, src, n)` into a fresh field: at most `n`
characters are copied and the remainder of the `n` positions is NUL-filled. -/
def strncpyPad (src : List Char) (n : Nat) : List Char :=
  src.take n ++ List.replicate (n - src.length) nul

/-- The login record built by main (lines 333-342): designated initializer
zeroes every field, the username is strncpy-ed in (line 337), and the kind
field is converted with htons — not htonl — at line 342. -/
def login_message (le : Bool) (uname : List Char) : message_t :=
  { message_type := htons le LOGIN
    timestamp := 0
    username := strncpyPad uname 32
    message := List.replicate 1024 nul }

/-- The outbound chat record built by the send loop (lines 403-406):
zero-initialised, kind htonl(MESSAGE_SEND), the input line strncpy-ed into
the body with bound 1023 and an explicit NUL at index 1023. -/
def outbound_message (le : Bool) (input : List Char) : message_t :=
  { message_type := htonl le MESSAGE_SEND
    timestamp := 0
    username := List.replicate 32 nul
    message := strncpyPad input 1023 ++ [nul] }

/-- The logout record built after the send loop exits (lines 417-418):
zero-initialised, kind htonl(LOGOUT). -/
def logout_message (le : Bool) : message_t :=
  { message_type := htonl le LOGOUT
    timestamp := 0
    username := List.replicate 32 nul
    message := List.replicate 1024 nul }

/-- sizeof(message_t): 4 + 4 + 32 + 1024 bytes (the struct is packed). -/
def sizeof_message_t : Nat := 4 + 4 + 32 + 1024

/-- One underlying read(2)/write(2) call outcome, as seen by the transfer
loops: `chunk k` = the call moved `k` bytes (k ≥ 1 in a real kernel),
`closed` = the call returned 0 (peer closed), `intr` = the call failed with
errno EINTR, `fault` = the call failed with any other errno. -/
inductive IOEvent
  | chunk (k : Nat)
  | closed
  | intr
  | fault
deriving DecidableEq

/-- Result of a transfer loop: `done t` = the function returned `t`
(`t = n` on full transfer, `t < n` when the peer closed early), `ioerr` =
the function returned -1, `pending` = the event trace ran out while the loop
would still be blocked (an artefact of finite traces, not a program
outcome). -/
inductive FullResult
  | pending
  | ioerr
  | done (t : Nat)
deriving DecidableEq

/-- The loop of perform_full_read (lines 189-208): while fewer than `n`
bytes have arrived, issue a read; on EINTR retry, on another error return
-1, on end-of-stream return the running total, otherwise accumulate. -/
def perform_full_read_loop (n : Nat) : List IOEvent → Nat → FullResult
  | [], total => if n ≤ total then .done total else .pending
  | e :: rest, total =>
    if n ≤ total then .done total
    else
      match e with
      | .chunk k => perform_full_read_loop n rest (total + k)
      | .closed => .done total
      | .intr => perform_full_read_loop n rest total
      | .fault => .ioerr

/-- perform_full_read (lines 189-208) applied to a trace of read outcomes. -/
def perform_full_read (n : Nat) (tr : List IOEvent) : FullResult :=
  perform_full_read_loop n tr 0

/-- The loop of perform_full_write (lines 168-187); structurally identical
to the read loop with write(2) in place of read(2). -/
def perform_full_write_loop (n : Nat) : List IOEvent → Nat → FullResult
  | [], total => if n ≤ total then .done total else .pending
  | e :: rest, total =>
    if n ≤ total then .done total
    else
      match e with
      | .chunk k => perform_full_write_loop n rest (total + k)
      | .closed => .done total
      | .intr => perform_full_write_loop n rest total
      | .fault => .ioerr

/-- perform_full_write (lines 168-187) applied to a trace of write outcomes. -/
def perform_full_write (n : Nat) (tr : List IOEvent) : FullResult :=
  perform_full_write_loop n tr 0

/-- Total bytes carried by the chunk events of a trace. -/
def sumChunks : List IOEvent → Nat
  | [] => 0
  | .chunk k :: rest => k + sumChunks rest
  | _ :: rest => sumChunks rest

/-- An event that delivers data or is a retried interruption (no close, no
transport fault). -/
def isData : IOEvent → Bool
  | .chunk _ => true
  | .intr => true
  | _ => false

/-- What one perform_full_read of a whole record produced, as seen by the
receive loop's `size != sizeof(message_t)` test (line 225): either a
complete record, or anything short of one (a short count or the -1 error
return, both of which differ from sizeof(message_t)). -/
inductive ReadResult
  | short
  | record (m : message_t)
deriving DecidableEq

/-- Terminal/continuation outcome of one receive-loop iteration: `next` =
fall through and loop again (another read will be attempted if the run-state
is still true at the loop head), `clean` = break out and return NULL,
`error` = pthread_exit((void*)-1). -/
inductive RecvOutcome
  | next
  | clean
  | error
deriving DecidableEq

/-- One iteration of the receive loop body (lines 219-280).  `running` is
the value of the shared run-state at the short-read check (line 226).  On a
complete record the kind field is converted with ntohl (line 234) and
dispatched: MESSAGE_RECV, DISCONNECT and SYSTEM all print and fall through
to the next iteration; any other kind is reported and exits with error
(lines 276-279). -/
def receive_messages_iteration (le : Bool) (running : Bool) (r : ReadResult) : RecvOutcome :=
  match r with
  | .short => if running then .error else .clean
  | .record m =>
    let kind := ntohl le m.message_type
    if kind = MESSAGE_RECV then .next
    else if kind = DISCONNECT then .next
    else if kind = SYSTEM then .next
    else .error

/-- strncmp(s, pat, |pat|) == 0 together with the bounds check
`i + username_length <= length` of line 256: the pattern matches at the head
of the remaining body. -/
def matchesAt : List Char → List Char → Bool
  | [], _ => true
  | _ :: _, [] => false
  | p :: ps, c :: cs => p == c && matchesAt ps cs

/-- The compare string of lines 249-252: the literal `@` followed by the
local username; the strncat bound and strnlen(compare, 33) cap the compared
tail at 32 username characters. -/
def mention_pattern (u : List Char) : List Char := '@' :: u.take 32

/-- One observable output action of the non-quiet MESSAGE_RECV renderer:
the bell (line 260), one highlighted mention (line 263), or one plain
character passed through (line 266). -/
inductive REvent
  | bell
  | mention
  | chr (c : Char)
deriving DecidableEq

/-- The mention scan of lines 255-269.  `fuel` bounds the number of loop
iterations; since every iteration consumes at least one body character,
`fuel = body.length` (as used by `highlight_message`) is exact.  `mentioned`
is the flag of line 253 that makes the bell fire at most once. -/
def scan_message (pat : List Char) : Nat → List Char → Bool → List REvent
  | 0, _, _ => []
  | _ + 1, [], _ => []
  | fuel + 1, c :: rest, mentioned =>
    if matchesAt pat (c :: rest) then
      (if mentioned then [] else [REvent.bell]) ++
        REvent.mention :: scan_message pat fuel ((c :: rest).drop pat.length) true
    else
      REvent.chr c :: scan_message pat fuel rest mentioned

/-- The full non-quiet body rendering of a MESSAGE_RECV for local username
`u` (lines 248-270), as the list of output actions. -/
def highlight_message (u : List Char) (body : List Char) : List REvent :=
  scan_message (mention_pattern u) body.length body false

/-- Number of non-overlapping occurrences of `pat` found by the same greedy
left-to-right scan (advance by the match length on a hit, by one character
otherwise). -/
def greedy_mention_count (pat : List Char) : Nat → List Char → Nat
  | 0, _ => 0
  | _ + 1, [] => 0
  | fuel + 1, c :: rest =>
    if matchesAt pat (c :: rest) then
      greedy_mention_count pat fuel ((c :: rest).drop pat.length) + 1
    else
      greedy_mention_count pat fuel rest

/-- Number of bell events emitted. -/
def count_bell : List REvent → Nat
  | [] => 0
  | REvent.bell :: es => count_bell es + 1
  | _ :: es => count_bell es

/-- Number of highlighted mention events emitted. -/
def count_mention : List REvent → Nat
  | [] => 0
  | REvent.mention :: es => count_mention es + 1
  | _ :: es => count_mention es

/-- The body text an observer reads back from the rendered output: a bell
contributes no text, a highlighted mention contributes the pattern (line 263
prints `compare` between the colour codes), a plain event contributes its
character. -/
def render_events (pat : List Char) : List REvent → List Char
  | [] => []
  | REvent.bell :: es => render_events pat es
  | REvent.mention :: es => pat ++ render_events pat es
  | REvent.chr c :: es => c :: render_events pat es

/-- isprint in the byte-oriented C locale used by the validation loop
(line 393): the printable ASCII range. -/
def isprintC (c : Char) : Bool := 32 ≤ c.toNat && c.toNat ≤ 126

/-- The newline strip of lines 371-375: drop one trailing line-feed if
present. -/
def stripTrailingNewline (s : List Char) : List Char :=
  if s.getLast? = some '\x0a' then s.dropLast else s

/-- What one send-loop iteration does with a line: skip it silently
(line 378, empty input), report it and skip it (lines 381-401), or build
and transmit an outbound record (lines 403-409). -/
inductive SendStep
  | rejectSilent
  | rejectReport
  | transmit (m : message_t)
deriving DecidableEq

/-- One iteration of the send loop body (lines 363-413) on the line read
from stdin, up to the point where the record is handed to
perform_full_write.  The first component is the shared run-state after the
iteration: no validation path assigns it (it changes only after the loop,
line 415). -/
def send_loop_iteration (le : Bool) (running : Bool) (rawLine : List Char) : Bool × SendStep :=
  let line := stripTrailingNewline rawLine
  if line = [] then (running, .rejectSilent)
  else if line.length < 1 ∨ 1023 < line.length then (running, .rejectReport)
  else if line.any (fun c => c == '\x0a' || !isprintC c) then (running, .rejectReport)
  else (running, .transmit (outbound_message le line))

/-- Terminal status of the receive thread as observed by pthread_join:
`clean` = it returned NULL (line 281), `error` = it called
pthread_exit((void*)-1). -/
inductive RecvStatus
  | clean
  | error
deriving DecidableEq

/-- The process exit code main derives from the joined thread's status
(lines 434-437 and the implicit return 0 at the end of main). -/
def recv_exit_code : RecvStatus → Int
  | .clean => 0
  | .error => -1

/-- Main's epilogue after the send loop exits (lines 415-442): the run-state
is set false, the logout record is written with perform_full_write over the
trace `tr`; if that write is not complete, main reports and returns -1
without joining the receive thread (lines 419-424); otherwise it joins and
returns -1 when the thread's status is non-NULL, 0 otherwise.  Result:
(process exit code, whether the receive thread was joined). -/
def main_logout_epilogue (tr : List IOEvent) (st : RecvStatus) : Int × Bool :=
  if perform_full_write sizeof_message_t tr = FullResult.done sizeof_message_t then
    match st with
    | RecvStatus.clean => ((0 : Int), true)
    | RecvStatus.error => ((-1 : Int), true)
  else ((-1 : Int), false)

/-- Outcome of main's connect phase (lines 326-350). -/
structure StartupOutcome where
  reportedConnectError : Bool
  running : Bool
  exited : Option Int
deriving DecidableEq

/-- Main's connect phase (lines 326-350): when connect fails the error is
printed but execution falls through (lines 326-329 contain no return);
the run-state is then set true unconditionally (line 330); the login write
is attempted, and only its failure makes main return -1 (lines 345-350). -/
def main_connect_phase (connectOk : Bool) (loginWriteOk : Bool) : StartupOutcome :=
  { reportedConnectError := !connectOk
    running := true
    exited := if loginWriteOk then none else some (-1) }

/-! ### Receive-loop termination (claims C1, C5, C8) -/

/-- Claim C1, evaluated on the code: a DISCONNECT record received while the
run-state is true does NOT end the receive loop — the DISCONNECT branch
(lines 272-273) only prints the notice and falls through, so the loop
proceeds to another iteration (and hence another read), contradicting the
claim that the loop terminates cleanly with no further read. -/
theorem disconnect_record_does_not_end_loop :
    ∀ (le : Bool) (uname body : List Char),
      receive_messages_iteration le true
        (ReadResult.record
          { message_type := htonl le DISCONNECT
            timestamp := 0
            username := uname
            message := body }) = RecvOutcome.next ∧
      RecvOutcome.next ≠ RecvOutcome.clean := by
  intro le uname body
  cases le <;>
    exact ⟨by simp [receive_messages_iteration, ntohl, htonl, bswap32, DISCONNECT,
      MESSAGE_RECV, SYSTEM], by decide⟩

/-- Claim C5: when the read of a record comes back incomplete (the
`size != sizeof(message_t)` test of line 225), the loop terminates cleanly
when the shared run-state is already false, and with the error state when it
is still true (lines 226-230). -/
theorem short_read_termination :
    ∀ (le running : Bool),
      receive_messages_iteration le running ReadResult.short =
        (if running then RecvOutcome.error else RecvOutcome.clean) := by
  decide

/-- Claim C8: an inbound record whose decoded kind is outside the protocol's
kind set is dispatched to the final else branch (lines 276-279): reported as
an invalid inbound message, the loop terminates with the error state.
Decoding itself (the ntohl conversion) is a total function and cannot
fail. -/
theorem unknown_kind_terminates_error (le running : Bool) (m : message_t)
    (h : ntohl le m.message_type ∉ [LOGIN, LOGOUT, MESSAGE_SEND, MESSAGE_RECV, DISCONNECT, SYSTEM]) :
    receive_messages_iteration le running (ReadResult.record m) = RecvOutcome.error := by
  have h10 : ¬ ntohl le m.message_type = MESSAGE_RECV := fun hh => h (by rw [hh]; simp)
  have h12 : ¬ ntohl le m.message_type = DISCONNECT := fun hh => h (by rw [hh]; simp)
  have h13 : ¬ ntohl le m.message_type = SYSTEM := fun hh => h (by rw [hh]; simp)
  simp [receive_messages_iteration, h10, h12, h13]

/-- Witness for claim C8 at a concrete input: a record whose wire kind field
decodes to 5 terminates the loop with the error state. -/
theorem unknown_kind_terminates_error_witness :
    receive_messages_iteration true true
      (ReadResult.record { message_type := htonl true 5, timestamp := 0, username := [], message := [] }) =
      RecvOutcome.error :=
  unknown_kind_terminates_error true true
    { message_type := htonl true 5, timestamp := 0, username := [], message := [] } (by decide)

/-! ### Byte order and outbound record contents (claims C9, C10) -/

/-- Claim C9: for each of the three records the client transmits — the LOGIN
record (which the source converts with htons, line 342), every MESSAGE_SEND
record (line 404) and the final LOGOUT record (line 418) — the four bytes of
the kind field as laid out in memory, and therefore on the wire, are the
big-endian encoding of the kind code, on hosts of either endianness.  (For
LOGIN the htons slip is unobservable because the code is 0.) -/
theorem outbound_kind_network_order :
    ∀ (le : Bool) (uname input : List Char),
      memBytes32 le (login_message le uname).message_type = be32bytes LOGIN ∧
      memBytes32 le (outbound_message le input).message_type = be32bytes MESSAGE_SEND ∧
      memBytes32 le (logout_message le).message_type = be32bytes LOGOUT := by
  intro le uname input
  have h1 : (login_message le uname).message_type = htons le LOGIN := rfl
  have h2 : (outbound_message le input).message_type = htonl le MESSAGE_SEND := rfl
  have h3 : (logout_message le).message_type = htonl le LOGOUT := rfl
  rw [h1, h2, h3]
  cases le <;> exact ⟨by decide, by decide, by decide⟩

/-- Claim C10: every outbound MESSAGE_SEND record has timestamp 0, an
all-NUL username field, and a body that is the validated input line NUL
padded to the field's 1024-byte capacity; the LOGOUT record has timestamp 0,
an all-NUL username and an all-NUL body.  (The send loop only builds records
from lines of length at most 1023.) -/
theorem outbound_payload_fields (le : Bool) (input : List Char)
    (h : input.length ≤ 1023) :
    (outbound_message le input).timestamp = 0 ∧
    (outbound_message le input).username = List.replicate 32 nul ∧
    (outbound_message le input).message = input ++ List.replicate (1024 - input.length) nul ∧
    (logout_message le).timestamp = 0 ∧
    (logout_message le).username = List.replicate 32 nul ∧
    (logout_message le).message = List.replicate 1024 nul := by
  refine ⟨rfl, rfl, ?_, rfl, rfl, rfl⟩
  show strncpyPad input 1023 ++ [nul] = input ++ List.replicate (1024 - input.length) nul
  have ht : input.take 1023 = input := List.take_of_length_le h
  have hn : 1023 - input.length + 1 = 1024 - input.length := by omega
  rw [strncpyPad, ht, List.append_assoc, ← List.replicate_succ', hn]

/-- Witness for claim C10 at a concrete input line. -/
theorem outbound_payload_fields_witness :
    (outbound_message true ['h', 'i']).message = ['h', 'i'] ++ List.replicate 1022 nul :=
  (outbound_payload_fields true ['h', 'i'] (by decide)).2.2.1

/-! ### Main's connect phase (claim C7) and logout epilogue (claim C2) -/

/-- Claim C7, evaluated on the code: when connect fails, main only prints
the error (lines 326-329 have no return) and still sets the run-state true
(line 330); the process does not stop there — it goes on to attempt the
login write, and exits -1 only when that write fails (lines 345-350). -/
theorem connect_failure_still_sets_running :
    (main_connect_phase false true).running = true ∧
    (main_connect_phase false false).running = true ∧
    (main_connect_phase false true).reportedConnectError = true ∧
    (main_connect_phase false false).exited = some (-1) := by
  decide

/-- Counterexample to claim C2: when the logout write fails (here: the
first write call faults) while the receive loop would have terminated
cleanly, main exits -1 without joining the receive thread (lines 419-424) —
not the (0, joined) outcome the claim requires. -/
theorem logout_failure_changes_exit_path :
    main_logout_epilogue [IOEvent.fault] RecvStatus.clean = ((-1 : Int), false) ∧
    ((-1 : Int), false) ≠ ((0 : Int), true) := by
  exact ⟨rfl, by decide⟩

/-- Claim C2 as amended: a LOGOUT write is attempted on every send-loop
exit; when it completes fully, main joins the receive thread and derives the
exit code from the thread's terminal status alone; when it fails or is
short, main reports, exits -1 and does not join. -/
theorem logout_then_join_exit (tr : List IOEvent) (st : RecvStatus) :
    main_logout_epilogue tr st =
      if perform_full_write sizeof_message_t tr = FullResult.done sizeof_message_t
      then (recv_exit_code st, true) else ((-1 : Int), false) := by
  unfold main_logout_epilogue
  split
  · cases st <;> rfl
  · rfl

/-! ### Guaranteed-complete transfer over a chunked transport (claim C3) -/

/-- If the trace delivers only data (chunks, possibly interleaved with
retried interruptions) totalling exactly the missing bytes, the read loop
returns the full count. -/
theorem perform_full_read_loop_data (n : Nat) :
    ∀ (evs : List IOEvent) (total : Nat), evs.all isData = true →
      total + sumChunks evs = n → perform_full_read_loop n evs total = FullResult.done n := by
  intro evs
  induction evs with
  | nil =>
    intro total _ hsum
    have h0 : sumChunks [] = 0 := rfl
    rw [h0] at hsum
    simp [perform_full_read_loop, Nat.le_of_eq hsum.symm, hsum.symm]
  | cons e rest ih =>
    intro total hdata hsum
    rw [List.all_cons, Bool.and_eq_true] at hdata
    cases e with
    | chunk k =>
      have hs : sumChunks (IOEvent.chunk k :: rest) = k + sumChunks rest := rfl
      rw [hs] at hsum
      by_cases hn : n ≤ total
      · have ht : total = n := by omega
        simp [perform_full_read_loop, hn, ht]
      · simp only [perform_full_read_loop, if_neg hn]
        exact ih (total + k) hdata.2 (by omega)
    | intr =>
      have hs : sumChunks (IOEvent.intr :: rest) = sumChunks rest := rfl
      rw [hs] at hsum
      by_cases hn : n ≤ total
      · have ht : total = n := by omega
        simp [perform_full_read_loop, hn, ht]
      · simp only [perform_full_read_loop, if_neg hn]
        exact ih total hdata.2 (by omega)
    | closed => simp [isData] at hdata
    | fault => simp [isData] at hdata

/-- If the data delivered so far falls short of `n` and the stream then
closes, the read loop returns the number of bytes actually moved — a short
result, not an error. -/
theorem perform_full_read_loop_closed (n : Nat) :
    ∀ (evs : List IOEvent) (total : Nat) (rest : List IOEvent), evs.all isData = true →
      total + sumChunks evs < n →
      perform_full_read_loop n (evs ++ IOEvent.closed :: rest) total =
        FullResult.done (total + sumChunks evs) := by
  intro evs
  induction evs with
  | nil =>
    intro total rest _ hlt
    have h0 : sumChunks [] = 0 := rfl
    rw [h0] at hlt ⊢
    simp only [Nat.add_zero] at hlt ⊢
    simp [perform_full_read_loop, Nat.not_le.mpr hlt]
  | cons e rest' ih =>
    intro total rest hdata hlt
    rw [List.all_cons, Bool.and_eq_true] at hdata
    cases e with
    | chunk k =>
      have hs : sumChunks (IOEvent.chunk k :: rest') = k + sumChunks rest' := rfl
      rw [hs] at hlt ⊢
      have hn : ¬ n ≤ total := by omega
      simp only [List.cons_append, perform_full_read_loop, if_neg hn]
      have hrec := ih (total + k) rest hdata.2 (by omega)
      have heq : total + k + sumChunks rest' = total + (k + sumChunks rest') := by omega
      rw [heq] at hrec
      exact hrec
    | intr =>
      have hs : sumChunks (IOEvent.intr :: rest') = sumChunks rest' := rfl
      rw [hs] at hlt ⊢
      have hn : ¬ n ≤ total := by omega
      simp only [List.cons_append, perform_full_read_loop, if_neg hn]
      exact ih total rest hdata.2 (by omega)
    | closed => simp [isData] at hdata
    | fault => simp [isData] at hdata

/-- If the data delivered so far falls short of `n` and the transport then
faults (an errno other than EINTR), the read loop returns the error
result. -/
theorem perform_full_read_loop_fault (n : Nat) :
    ∀ (evs : List IOEvent) (total : Nat) (rest : List IOEvent), evs.all isData = true →
      total + sumChunks evs < n →
      perform_full_read_loop n (evs ++ IOEvent.fault :: rest) total = FullResult.ioerr := by
  intro evs
  induction evs with
  | nil =>
    intro total rest _ hlt
    have h0 : sumChunks [] = 0 := rfl
    rw [h0] at hlt
    simp only [Nat.add_zero] at hlt
    simp [perform_full_read_loop, Nat.not_le.mpr hlt]
  | cons e rest' ih =>
    intro total rest hdata hlt
    rw [List.all_cons, Bool.and_eq_true] at hdata
    cases e with
    | chunk k =>
      have hs : sumChunks (IOEvent.chunk k :: rest') = k + sumChunks rest' := rfl
      rw [hs] at hlt
      have hn : ¬ n ≤ total := by omega
      simp only [List.cons_append, perform_full_read_loop, if_neg hn]
      exact ih (total + k) rest hdata.2 (by omega)
    | intr =>
      have hs : sumChunks (IOEvent.intr :: rest') = sumChunks rest' := rfl
      rw [hs] at hlt
      have hn : ¬ n ≤ total := by omega
      simp only [List.cons_append, perform_full_read_loop, if_neg hn]
      exact ih total rest hdata.2 (by omega)
    | closed => simp [isData] at hdata
    | fault => simp [isData] at hdata

/-- Write-side analogue of `perform_full_read_loop_data`. -/
theorem perform_full_write_loop_data (n : Nat) :
    ∀ (evs : List IOEvent) (total : Nat), evs.all isData = true →
      total + sumChunks evs = n → perform_full_write_loop n evs total = FullResult.done n := by
  intro evs
  induction evs with
  | nil =>
    intro total _ hsum
    have h0 : sumChunks [] = 0 := rfl
    rw [h0] at hsum
    simp [perform_full_write_loop, Nat.le_of_eq hsum.symm, hsum.symm]
  | cons e rest ih =>
    intro total hdata hsum
    rw [List.all_cons, Bool.and_eq_true] at hdata
    cases e with
    | chunk k =>
      have hs : sumChunks (IOEvent.chunk k :: rest) = k + sumChunks rest := rfl
      rw [hs] at hsum
      by_cases hn : n ≤ total
      · have ht : total = n := by omega
        simp [perform_full_write_loop, hn, ht]
      · simp only [perform_full_write_loop, if_neg hn]
        exact ih (total + k) hdata.2 (by omega)
    | intr =>
      have hs : sumChunks (IOEvent.intr :: rest) = sumChunks rest := rfl
      rw [hs] at hsum
      by_cases hn : n ≤ total
      · have ht : total = n := by omega
        simp [perform_full_write_loop, hn, ht]
      · simp only [perform_full_write_loop, if_neg hn]
        exact ih total hdata.2 (by omega)
    | closed => simp [isData] at hdata
    | fault => simp [isData] at hdata

/-- Write-side analogue of `perform_full_read_loop_closed`. -/
theorem perform_full_write_loop_closed (n : Nat) :
    ∀ (evs : List IOEvent) (total : Nat) (rest : List IOEvent), evs.all isData = true →
      total + sumChunks evs < n →
      perform_full_write_loop n (evs ++ IOEvent.closed :: rest) total =
        FullResult.done (total + sumChunks evs) := by
  intro evs
  induction evs with
  | nil =>
    intro total rest _ hlt
    have h0 : sumChunks [] = 0 := rfl
    rw [h0] at hlt ⊢
    simp only [Nat.add_zero] at hlt ⊢
    simp [perform_full_write_loop, Nat.not_le.mpr hlt]
  | cons e rest' ih =>
    intro total rest hdata hlt
    rw [List.all_cons, Bool.and_eq_true] at hdata
    cases e with
    | chunk k =>
      have hs : sumChunks (IOEvent.chunk k :: rest') = k + sumChunks rest' := rfl
      rw [hs] at hlt ⊢
      have hn : ¬ n ≤ total := by omega
      simp only [List.cons_append, perform_full_write_loop, if_neg hn]
      have hrec := ih (total + k) rest hdata.2 (by omega)
      have heq : total + k + sumChunks rest' = total + (k + sumChunks rest') := by omega
      rw [heq] at hrec
      exact hrec
    | intr =>
      have hs : sumChunks (IOEvent.intr :: rest') = sumChunks rest' := rfl
      rw [hs] at hlt ⊢
      have hn : ¬ n ≤ total := by omega
      simp only [List.cons_append, perform_full_write_loop, if_neg hn]
      exact ih total rest hdata.2 (by omega)
    | closed => simp [isData] at hdata
    | fault => simp [isData] at hdata

/-- Write-side analogue of `perform_full_read_loop_fault`. -/
theorem perform_full_write_loop_fault (n : Nat) :
    ∀ (evs : List IOEvent) (total : Nat) (rest : List IOEvent), evs.all isData = true →
      total + sumChunks evs < n →
      perform_full_write_loop n (evs ++ IOEvent.fault :: rest) total = FullResult.ioerr := by
  intro evs
  induction evs with
  | nil =>
    intro total rest _ hlt
    have h0 : sumChunks [] = 0 := rfl
    rw [h0] at hlt
    simp only [Nat.add_zero] at hlt
    simp [perform_full_write_loop, Nat.not_le.mpr hlt]
  | cons e rest' ih =>
    intro total rest hdata hlt
    rw [List.all_cons, Bool.and_eq_true] at hdata
    cases e with
    | chunk k =>
      have hs : sumChunks (IOEvent.chunk k :: rest') = k + sumChunks rest' := rfl
      rw [hs] at hlt
      have hn : ¬ n ≤ total := by omega
      simp only [List.cons_append, perform_full_write_loop, if_neg hn]
      exact ih (total + k) rest hdata.2 (by omega)
    | intr =>
      have hs : sumChunks (IOEvent.intr :: rest') = sumChunks rest' := rfl
      rw [hs] at hlt
      have hn : ¬ n ≤ total := by omega
      simp only [List.cons_append, perform_full_write_loop, if_neg hn]
      exact ih total rest hdata.2 (by omega)
    | closed => simp [isData] at hdata
    | fault => simp [isData] at hdata

/-- Claim C3: over a transport that delivers the data in arbitrarily small
chunks (trace `pre` of chunk and retried-interruption events), both transfer
primitives (1) return exactly `n` when the chunks total `n`; (2) return the
strictly smaller total, without an error, when the peer closes first;
(3) return the error result only on a genuine transport fault; and (4) a
signal interruption at the front of the trace is retried — it leaves the
result unchanged rather than failing. -/
theorem exact_io_transfer (n : Nat) (pre rest : List IOEvent)
    (hdata : pre.all isData = true) :
    (sumChunks pre = n →
      perform_full_read n pre = FullResult.done n ∧
      perform_full_write n pre = FullResult.done n) ∧
    (sumChunks pre < n →
      perform_full_read n (pre ++ IOEvent.closed :: rest) = FullResult.done (sumChunks pre) ∧
      perform_full_write n (pre ++ IOEvent.closed :: rest) = FullResult.done (sumChunks pre)) ∧
    (sumChunks pre < n →
      perform_full_read n (pre ++ IOEvent.fault :: rest) = FullResult.ioerr ∧
      perform_full_write n (pre ++ IOEvent.fault :: rest) = FullResult.ioerr) ∧
    (0 < n →
      perform_full_read n (IOEvent.intr :: pre) = perform_full_read n pre ∧
      perform_full_write n (IOEvent.intr :: pre) = perform_full_write n pre) := by
  refine ⟨fun hsum => ⟨?_, ?_⟩, fun hlt => ⟨?_, ?_⟩, fun hlt => ⟨?_, ?_⟩, fun hpos => ⟨?_, ?_⟩⟩
  · exact perform_full_read_loop_data n pre 0 hdata (by omega)
  · exact perform_full_write_loop_data n pre 0 hdata (by omega)
  · have := perform_full_read_loop_closed n pre 0 rest hdata (by omega)
    rw [perform_full_read, this]
    congr 1
    omega
  · have := perform_full_write_loop_closed n pre 0 rest hdata (by omega)
    rw [perform_full_write, this]
    congr 1
    omega
  · exact perform_full_read_loop_fault n pre 0 rest hdata (by omega)
  · exact perform_full_write_loop_fault n pre 0 rest hdata (by omega)
  · rw [perform_full_read, perform_full_read]
    show (if n ≤ 0 then FullResult.done 0
      else perform_full_read_loop n pre 0) = perform_full_read_loop n pre 0
    rw [if_neg (by omega)]
  · rw [perform_full_write, perform_full_write]
    show (if n ≤ 0 then FullResult.done 0
      else perform_full_write_loop n pre 0) = perform_full_write_loop n pre 0
    rw [if_neg (by omega)]

/-- Witness for claim C3 at a concrete trace: three bytes requested, the
transport delivers 2 bytes, an interruption, then 1 byte — both primitives
return the full count 3. -/
theorem exact_io_transfer_witness :
    perform_full_read 3 [IOEvent.chunk 2, IOEvent.intr, IOEvent.chunk 1] = FullResult.done 3 ∧
    perform_full_write 3 [IOEvent.chunk 2, IOEvent.intr, IOEvent.chunk 1] = FullResult.done 3 :=
  (exact_io_transfer 3 [IOEvent.chunk 2, IOEvent.intr, IOEvent.chunk 1] [] (by decide)).1
    (by decide)

/-! ### Mention highlighting (claim C4) -/

/-- A successful bounded compare decomposes the scanned suffix: the pattern
is literally there, followed by the remainder the scan jumps to. -/
theorem matchesAt_take_drop :
    ∀ (pat s : List Char), matchesAt pat s = true → pat ++ s.drop pat.length = s := by
  intro pat
  induction pat with
  | nil => intro s _; simp
  | cons p ps ih =>
    intro s hm
    cases s with
    | nil => simp [matchesAt] at hm
    | cons c cs =>
      rw [matchesAt, Bool.and_eq_true] at hm
      have hpc : p = c := by
        have := hm.1
        simpa using this
      have hrec := ih cs hm.2
      simp only [List.length_cons, List.cons_append, List.drop_succ_cons]
      rw [hpc, hrec]

/-- Once the mentioned flag is set, the scan emits no further bell. -/
theorem count_bell_scan_true (pat : List Char) :
    ∀ (fuel : Nat) (body : List Char),
      count_bell (scan_message pat fuel body true) = 0 := by
  intro fuel
  induction fuel with
  | zero => intro body; rfl
  | succ f ih =>
    intro body
    cases body with
    | nil => rfl
    | cons c rest =>
      rw [scan_message]
      by_cases hm : matchesAt pat (c :: rest) = true
      · rw [if_pos hm]
        simp only [if_pos rfl, List.nil_append]
        show count_bell (scan_message pat f ((c :: rest).drop pat.length) true) = 0
        exact ih _
      · rw [if_neg hm]
        show count_bell (scan_message pat f rest true) = 0
        exact ih rest

/-- Starting with the flag clear, the bell fires exactly once when the scan
finds at least one match and never otherwise. -/
theorem count_bell_scan (pat : List Char) :
    ∀ (fuel : Nat) (body : List Char),
      count_bell (scan_message pat fuel body false) =
        min 1 (greedy_mention_count pat fuel body) := by
  intro fuel
  induction fuel with
  | zero => intro body; rfl
  | succ f ih =>
    intro body
    cases body with
    | nil => rfl
    | cons c rest =>
      rw [scan_message, greedy_mention_count]
      by_cases hm : matchesAt pat (c :: rest) = true
      · rw [if_pos hm, if_pos hm]
        show count_bell (REvent.bell :: REvent.mention ::
          scan_message pat f ((c :: rest).drop pat.length) true) = _
        rw [show ∀ es, count_bell (REvent.bell :: REvent.mention :: es) = count_bell es + 1
          from fun es => rfl]
        rw [count_bell_scan_true pat f ((c :: rest).drop pat.length)]
        omega
      · rw [if_neg hm, if_neg hm]
        show count_bell (scan_message pat f rest false) = _
        exact ih rest

/-- The scan emits one highlighted mention per greedy match, independently
of the mentioned flag. -/
theorem count_mention_scan (pat : List Char) :
    ∀ (fuel : Nat) (body : List Char) (m : Bool),
      count_mention (scan_message pat fuel body m) =
        greedy_mention_count pat fuel body := by
  intro fuel
  induction fuel with
  | zero => intro body m; rfl
  | succ f ih =>
    intro body m
    cases body with
    | nil => rfl
    | cons c rest =>
      rw [scan_message, greedy_mention_count]
      by_cases hm : matchesAt pat (c :: rest) = true
      · rw [if_pos hm, if_pos hm]
        cases m with
        | true =>
          show count_mention (REvent.mention ::
            scan_message pat f ((c :: rest).drop pat.length) true) = _
          rw [show ∀ es, count_mention (REvent.mention :: es) = count_mention es + 1
            from fun es => rfl]
          rw [ih _ true]
        | false =>
          show count_mention (REvent.bell :: REvent.mention ::
            scan_message pat f ((c :: rest).drop pat.length) true) = _
          rw [show ∀ es, count_mention (REvent.bell :: REvent.mention :: es) =
            count_mention es + 1 from fun es => rfl]
          rw [ih _ true]
      · rw [if_neg hm, if_neg hm]
        show count_mention (scan_message pat f rest m) = _
        exact ih rest m

/-- Reading the rendered output back (highlighted mentions as the pattern
text, plain events as their character) reproduces the original body exactly:
nothing is lost, duplicated or reordered, and matches never overlap. -/
theorem render_scan (pat : List Char) (hp : pat ≠ []) :
    ∀ (fuel : Nat) (body : List Char) (m : Bool), body.length ≤ fuel →
      render_events pat (scan_message pat fuel body m) = body := by
  intro fuel
  induction fuel with
  | zero =>
    intro body m hlen
    have : body = [] := List.eq_nil_of_length_eq_zero (by omega)
    rw [this]
    rfl
  | succ f ih =>
    intro body m hlen
    cases body with
    | nil => rfl
    | cons c rest =>
      rw [scan_message]
      by_cases hm : matchesAt pat (c :: rest) = true
      · rw [if_pos hm]
        have hdroplen : ((c :: rest).drop pat.length).length ≤ f := by
          cases pat with
          | nil => exact absurd rfl hp
          | cons q qs =>
            rw [List.length_drop]
            simp only [List.length_cons] at hlen ⊢
            omega
        have hrec := ih ((c :: rest).drop pat.length) true hdroplen
        have hrender : render_events pat ((if m then [] else [REvent.bell]) ++
            REvent.mention :: scan_message pat f ((c :: rest).drop pat.length) true) =
            pat ++ render_events pat (scan_message pat f ((c :: rest).drop pat.length) true) := by
          cases m with
          | true => rfl
          | false => rfl
        rw [hrender, hrec]
        exact matchesAt_take_drop pat (c :: rest) hm
      · rw [if_neg hm]
        show c :: render_events pat (scan_message pat f rest m) = c :: rest
        rw [ih rest m (by simp only [List.length_cons] at hlen; omega)]

/-- Claim C4: when the mention pattern `@` ++ local-username occurs k > 0
times in the body (k counted by the same greedy non-overlapping
left-to-right scan the code performs, which advances by the match length on
a hit and by one character otherwise), the non-quiet renderer emits the bell
exactly once regardless of k, emits exactly k highlighted mentions, and the
rendered output reads back as the body unchanged and in order. -/
theorem mention_highlighting (u body : List Char)
    (h : 0 < greedy_mention_count (mention_pattern u) body.length body) :
    count_bell (highlight_message u body) = 1 ∧
    count_mention (highlight_message u body) =
      greedy_mention_count (mention_pattern u) body.length body ∧
    render_events (mention_pattern u) (highlight_message u body) = body := by
  refine ⟨?_, count_mention_scan _ _ _ _, render_scan _ (by simp [mention_pattern]) _ _ _ le_rfl⟩
  rw [highlight_message, count_bell_scan]
  omega

/-- Witness for claim C4 at a concrete input: username `b`, body `@bx@b`
contains the pattern `@b` twice; one bell, two highlighted mentions, and the
output reads back as the body. -/
theorem mention_highlighting_witness :
    count_bell (highlight_message ['b'] ['@', 'b', 'x', '@', 'b']) = 1 ∧
    count_mention (highlight_message ['b'] ['@', 'b', 'x', '@', 'b']) =
      greedy_mention_count (mention_pattern ['b'])
        (List.length ['@', 'b', 'x', '@', 'b']) ['@', 'b', 'x', '@', 'b'] ∧
    render_events (mention_pattern ['b']) (highlight_message ['b'] ['@', 'b', 'x', '@', 'b']) =
      ['@', 'b', 'x', '@', 'b'] :=
  mention_highlighting ['b'] ['@', 'b', 'x', '@', 'b'] (by decide)

/-! ### Send-loop input validation (claim C6) -/

/-- Counterexample to claim C6: a line that is empty once the trailing
line-feed is stripped is rejected by the bare continue of line 378 with no
report — not the reported rejection the claim states for every invalid
line. -/
theorem empty_line_rejected_without_report :
    send_loop_iteration true true ['\x0a'] = (true, SendStep.rejectSilent) ∧
    SendStep.rejectSilent ≠ SendStep.rejectReport := by
  exact ⟨rfl, by decide⟩

/-- Claim C6 as amended: every local input line that is empty (after the
single trailing line-feed is stripped), longer than 1023 characters, or
containing a line break or a non-printable character is rejected and the
loop continues: no outbound record is produced and the shared run-state is
unchanged; the rejection is reported except for the empty line, which is
discarded silently. -/
theorem invalid_line_rejected (le running : Bool) (rawLine : List Char)
    (h : stripTrailingNewline rawLine = [] ∨
         1023 < (stripTrailingNewline rawLine).length ∨
         '\x0a' ∈ stripTrailingNewline rawLine ∨
         ∃ c ∈ stripTrailingNewline rawLine, isprintC c = false) :
    (send_loop_iteration le running rawLine).1 = running ∧
    (∀ m, (send_loop_iteration le running rawLine).2 ≠ SendStep.transmit m) ∧
    (send_loop_iteration le running rawLine).2 =
      (if stripTrailingNewline rawLine = [] then SendStep.rejectSilent
       else SendStep.rejectReport) := by
  have hval : send_loop_iteration le running rawLine =
      (running, if stripTrailingNewline rawLine = [] then SendStep.rejectSilent
                else SendStep.rejectReport) := by
    by_cases hempty : stripTrailingNewline rawLine = []
    · rw [send_loop_iteration]
      simp [hempty]
    · rw [if_neg hempty]
      by_cases hlong : 1023 < (stripTrailingNewline rawLine).length
      · rw [send_loop_iteration]
        simp only [if_neg hempty]
        rw [if_pos (Or.inr hlong)]
      · have hbad : ∃ c ∈ stripTrailingNewline rawLine,
            c = '\x0a' ∨ isprintC c = false := by
          rcases h with h | h | h | h
          · exact absurd h hempty
          · exact absurd h hlong
          · exact ⟨'\x0a', h, Or.inl rfl⟩
          · obtain ⟨c, hc, hcp⟩ := h
            exact ⟨c, hc, Or.inr hcp⟩
        have hany : (stripTrailingNewline rawLine).any
            (fun c => c == '\x0a' || !isprintC c) = true := by
          rw [List.any_eq_true]
          obtain ⟨c, hc, hcp⟩ := hbad
          refine ⟨c, hc, ?_⟩
          rcases hcp with hcp | hcp
          · rw [hcp]; simp
          · rw [hcp]; simp
        have hnot : ¬ ((stripTrailingNewline rawLine).length < 1 ∨
            1023 < (stripTrailingNewline rawLine).length) := by
          push_neg
          refine ⟨?_, by omega⟩
          have := List.length_pos.mpr hempty
          omega
        rw [send_loop_iteration]
        simp only [if_neg hempty, if_neg hnot]
        rw [if_pos hany]
  rw [hval]
  refine ⟨rfl, ?_, rfl⟩
  intro m
  by_cases hempty : stripTrailingNewline rawLine = []
  · rw [if_pos hempty]
    simp
  · rw [if_neg hempty]
    simp

/-- Witness for claim C6 (amended) at a concrete input: the line `a<TAB>`
contains a non-printable character and is rejected with a report. -/
theorem invalid_line_rejected_witness :
    (send_loop_iteration true true ['a', '\x09']).2 =
      (if stripTrailingNewline ['a', '\x09'] = [] then SendStep.rejectSilent
       else SendStep.rejectReport) :=
  (invalid_line_rejected true true ['a', '\x09'] (by decide)).2.2

end Client
